import Mathlib

/-!
Shallow embedding of the udon-order tracker core
(src/services/geminiService.ts together with the App component and types):
the extraction adapter `parseEmailContent`, the order builder `processEmail`,
the store update `appendOrder`, the initial batch load, the aggregator
(`stats`, `chartData`) and the manual-sync handler, with theorems checking
the specification's claims about them.
-/

namespace Udon

/-- Menu item, from types.ts: `{ name: string; isUdon: boolean }`. -/
structure OrderItem where
  name : String
  isUdon : Bool
deriving DecidableEq, Repr

/-- Return shape of `parseEmailContent`: `{ items: OrderItem[], date: string }`. -/
structure ParsedContent where
  items : List OrderItem
  date : String
deriving DecidableEq, Repr

/-- CafeteriaOrder, from types.ts. -/
structure CafeteriaOrder where
  id : String
  date : String
  sender : String
  subject : String
  items : List OrderItem
  fullText : String
  hasUdon : Bool
deriving DecidableEq, Repr

/-- A raw email record as produced by the mock feed: `{ id, subject, date, body }`. -/
structure RawEmail where
  id : String
  subject : String
  date : String
  body : String
deriving DecidableEq, Repr

/-- Outcome of the underlying `ai.models.generateContent` call inside
`parseEmailContent`: either the awaited promise rejects (transport error,
timeout, throttling), or it resolves and `JSON.parse(response.text || "\x7b\x7d")`
either succeeds with data of the response schema (`reply (some d)`) or throws
(`reply none`). -/
inductive ServiceOutcome where
  | transportError
  | reply (parsed : Option ParsedContent)
deriving DecidableEq, Repr

/-- `parseEmailContent` from src/services/geminiService.ts.  The `await`
on `generateContent` stands OUTSIDE the try/catch, so a rejected promise
propagates to the caller (`Except.error`).  Only the `JSON.parse` call is
inside the try; its catch clause returns
`{ items: [], date: new Date().toISOString().split(T)[0] }`, i.e. the
current date, not the empty string.  A successfully parsed reply is
returned as-is, unvalidated.  `today` is the wall-clock date at call time. -/
def parseEmailContent (outcome : ServiceOutcome) (today : String) :
    Except Unit ParsedContent :=
  match outcome with
  | .transportError => .error ()
  | .reply (some data) => .ok data
  | .reply none => .ok { items := [], date := today }

/-- Characters of `cs` before the first occurrence of `sep`. -/
def splitFirstAux (sep : Char) : List Char → List Char
  | [] => []
  | c :: cs => if c = sep then [] else c :: splitFirstAux sep cs

/-- JS `s.split(sep)[0]` for a one-character separator: the prefix of `s`
before the first occurrence of `sep` (the whole of `s` when `sep` does not
occur, and `""` when `s = ""`). -/
def splitFirst (s : String) (sep : Char) : String :=
  String.mk (splitFirstAux sep s.data)

/-- `ps` is a character-wise prefix of `cs`. -/
def strStartsWithAux : List Char → List Char → Bool
  | [], _ => true
  | _ :: _, [] => false
  | p :: ps, c :: cs => p == c && strStartsWithAux ps cs

/-- JS `s.startsWith(pre)`: `pre` is a prefix of `s`. -/
def strStartsWith (s pre : String) : Bool :=
  strStartsWithAux pre.data s.data

/-- JS `a || b` on strings: the empty string is falsy. -/
def jsOrString (a b : String) : String :=
  if a = "" then b else a

/-- `processEmail` from the App component: parse the body, derive `hasUdon`
as `parsed.items.some(item => item.isUdon)`, and build the order with
`date: parsed.date || email.date.split(SPACE)[0]`.  The `await` on
`parseEmailContent` means a rejection there propagates. -/
def processEmail (outcome : ServiceOutcome) (today : String) (email : RawEmail) :
    Except Unit CafeteriaOrder :=
  match parseEmailContent outcome today with
  | .error e => .error e
  | .ok parsed =>
      .ok { id := email.id
            date := jsOrString parsed.date (splitFirst email.date ' ')
            sender := "創価高等学校食堂"
            subject := email.subject
            items := parsed.items
            fullText := email.body
            hasUdon := parsed.items.any (fun item => item.isUdon) }

/-- The store update of the polling effect:
`setOrders(prev => [processed, ...prev])` — an unconditional prepend. -/
def appendOrder (o : CafeteriaOrder) (prev : List CafeteriaOrder) :
    List CafeteriaOrder :=
  o :: prev

/-- The React component state the scheduler touches. -/
structure AppState where
  orders : List CafeteriaOrder
  isSyncing : Bool
  autoSync : Bool
  lastSyncTime : Nat
deriving DecidableEq, Repr

/-- `setIsSyncing`. -/
def setIsSyncing (b : Bool) (s : AppState) : AppState :=
  { s with isSyncing := b }

/-- `setLastSyncTime`. -/
def setLastSyncTime (t : Nat) (s : AppState) : AppState :=
  { s with lastSyncTime := t }

/-- `setOrders` with a plain value. -/
def setOrders (os : List CafeteriaOrder) (s : AppState) : AppState :=
  { s with orders := os }

/-- `Promise.all(batch.map(processEmail))`: resolves with the results in
batch order when every element resolves, rejects as soon as any element
rejects. -/
def processBatch (outcomes : RawEmail → ServiceOutcome) (today : String) :
    List RawEmail → Except Unit (List CafeteriaOrder)
  | [] => .ok []
  | e :: rest =>
      match processEmail (outcomes e) today e, processBatch outcomes today rest with
      | .ok o, .ok os => .ok (o :: os)
      | .error err, _ => .error err
      | .ok _, .error err => .error err

/-- The initial-load effect of the App:
`setIsSyncing(true); try { setOrders(await Promise.all(...)) } catch {}
finally { setIsSyncing(false) }`.  A rejection of `Promise.all` lands in
the catch clause, which only logs: `setOrders` is never called, so the
whole batch is discarded; `finally` still clears `isSyncing`. -/
def initialLoad (outcomes : RawEmail → ServiceOutcome) (today : String)
    (batch : List RawEmail) (s : AppState) : AppState :=
  let s1 := setIsSyncing true s
  match processBatch outcomes today batch with
  | .ok results => setIsSyncing false (setOrders results s1)
  | .error _ => setIsSyncing false s1

/-- Statistics, from types.ts; `udonPercentage` is a JS number, modelled
as a rational. -/
structure Statistics where
  totalOrders : Nat
  udonCount : Nat
  udonPercentage : ℚ
  thisMonthCount : Nat
deriving DecidableEq, Repr

/-- The `stats` useMemo of the App.  `currentMonth` models the module-level
constant `CURRENT_MONTH = new Date().toISOString().slice(0, 7)` — the
month at module load time; the aggregator takes no period argument from
its callers. -/
def stats (currentMonth : String) (orders : List CafeteriaOrder) : Statistics :=
  let udonOrders := orders.filter (fun o => o.hasUdon)
  { totalOrders := orders.length
    udonCount := udonOrders.length
    udonPercentage :=
      if orders.length > 0 then ((udonOrders.length : ℚ) / (orders.length : ℚ)) * 100
      else 0
    thisMonthCount :=
      (udonOrders.filter (fun o => strStartsWith o.date currentMonth)).length }

/-- One bucket of the chart series: `{ date, others, udon }`. -/
structure ChartBucket where
  date : String
  others : Nat
  udon : Nat
deriving DecidableEq, Repr

/-- `if (o.hasUdon) groups[d].udon += 1; else groups[d].others += 1;`. -/
def bumpBucket (hasUdon : Bool) (b : ChartBucket) : ChartBucket :=
  if hasUdon then { b with udon := b.udon + 1 } else { b with others := b.others + 1 }

/-- One iteration of the `orders.forEach` grouping loop of the `chartData`
useMemo: create the bucket for `o.date` if absent (JS object insertion
order: new keys go last), then bump its udon/others counter. -/
def addToGroups (gs : List ChartBucket) (o : CafeteriaOrder) : List ChartBucket :=
  if gs.any (fun b => b.date == o.date) then
    gs.map (fun b => if b.date == o.date then bumpBucket o.hasUdon b else b)
  else
    gs ++ [bumpBucket o.hasUdon { date := o.date, others := 0, udon := 0 }]

/-- `Object.values(groups)` after the forEach loop. -/
def groupOrders (orders : List CafeteriaOrder) : List ChartBucket :=
  orders.foldl addToGroups []

/-- JS `Array.prototype.slice(-n)`: the last `n` elements (all of them when
there are at most `n`). -/
def sliceLast (n : Nat) (l : List α) : List α :=
  l.drop (l.length - n)

/-- Lexicographic (codepoint) non-strict comparison of character lists. -/
def charListLe : List Char → List Char → Bool
  | [], _ => true
  | _ :: _, [] => false
  | a :: as, b :: bs => if a = b then charListLe as bs else decide (a < b)

/-- Lexicographic codepoint order on strings: the order
`a.localeCompare(b) <= 0` realizes on the ISO date strings in play. -/
def strLe (a b : String) : Bool :=
  charListLe a.data b.data

/-- Strict version of `strLe`. -/
def strLt (a b : String) : Bool :=
  strLe a b && !(a == b)

/-- `Object.values(groups).sort((a, b) => a.date.localeCompare(b.date))`
(codepoint order on the date strings; the keys are pairwise distinct, so
every sorted rearrangement is the same list and the choice of sorting
algorithm is unobservable). -/
def sortedGroups (orders : List CafeteriaOrder) : List ChartBucket :=
  List.insertionSort (fun a b => strLe a.date b.date = true) (groupOrders orders)

/-- The `chartData` useMemo: group by date, sort ascending by date, then
`slice(-14)`. -/
def chartData (orders : List CafeteriaOrder) : List ChartBucket :=
  sliceLast 14 (sortedGroups orders)

/-- Total of one bucket. -/
def bucketTotal (b : ChartBucket) : Nat :=
  b.udon + b.others

/-- Grand total over a bucket list. -/
def bucketSum (gs : List ChartBucket) : Nat :=
  (gs.map bucketTotal).sum

/-- Sum of a per-bucket numeric field over the buckets carrying date `d`. -/
def fieldAt (f : ChartBucket → Nat) (gs : List ChartBucket) (d : String) : Nat :=
  ((gs.filter (fun b => b.date == d)).map f).sum

/-- Sum of `δ o.hasUdon` over the orders dated `d`. -/
def countAt (δ : Bool → Nat) (orders : List CafeteriaOrder) (d : String) : Nat :=
  ((orders.filter (fun o => o.date == d)).map (fun o => δ o.hasUdon)).sum

/-- Number of udon orders carrying date `d`. -/
def countUdonAt (orders : List CafeteriaOrder) (d : String) : Nat :=
  (orders.filter (fun o => o.date == d && o.hasUdon)).length

/-- Number of non-udon orders carrying date `d`. -/
def countOthersAt (orders : List CafeteriaOrder) (d : String) : Nat :=
  (orders.filter (fun o => o.date == d && !o.hasUdon)).length

/-- `handleManualSync`: `setIsSyncing(true); await delay(1200);
setLastSyncTime(new Date()); setIsSyncing(false)`.  Returns the state
during the simulated delay and the state after completion. -/
def handleManualSync (s : AppState) (now : Nat) : AppState × AppState :=
  let during := setIsSyncing true s
  (during, setIsSyncing false (setLastSyncTime now during))

/-- First mock email of `MOCK_EMAILS`. -/
def emailA : RawEmail :=
  { id := "1", subject := "【創価高等学校食堂】ご注文内容の確認",
    date := "2024-03-20 12:00", body := "【注文内容】\n・きつねうどん\n・おにぎり" }

/-- Second mock email of `MOCK_EMAILS`. -/
def emailB : RawEmail :=
  { id := "2", subject := "【創価高等学校食堂】ご注文内容の確認",
    date := "2024-03-18 11:30", body := "【注文内容】\n・カレーライス\n・サラダ" }

/-- Extraction reply for `emailA` (scenario A of the spec). -/
def parsedA : ParsedContent :=
  { items := [{ name := "きつねうどん", isUdon := true },
              { name := "おにぎり", isUdon := false }],
    date := "2024-03-20" }

/-- The order `processEmail` builds from `emailA` and `parsedA`. -/
def orderA : CafeteriaOrder :=
  { id := "1", date := "2024-03-20", sender := "創価高等学校食堂",
    subject := "【創価高等学校食堂】ご注文内容の確認",
    items := [{ name := "きつねうどん", isUdon := true },
              { name := "おにぎり", isUdon := false }],
    fullText := "【注文内容】\n・きつねうどん\n・おにぎり", hasUdon := true }

/-- The order `processEmail` builds from `emailB` and the degraded
extraction result with an empty date (scenario B of the spec). -/
def orderB : CafeteriaOrder :=
  { id := "2", date := "2024-03-18", sender := "創価高等学校食堂",
    subject := "【創価高等学校食堂】ご注文内容の確認",
    items := [], fullText := "【注文内容】\n・カレーライス\n・サラダ",
    hasUdon := false }

/-- An udon order dated January 2023, outside the month "2024-03". -/
def orderJan : CafeteriaOrder :=
  { id := "x", date := "2023-01-05", sender := "創価高等学校食堂", subject := "s",
    items := [{ name := "かけうどん", isUdon := true }], fullText := "b",
    hasUdon := true }

/-- Service outcomes for the batch counterexample: the first mock email's
extraction call rejects, every other email parses fine. -/
def cexOutcomes : RawEmail → ServiceOutcome := fun e =>
  if e.id = "1" then .transportError
  else .reply (some { items := [], date := "" })

/-- Fresh application state. -/
def s0 : AppState :=
  { orders := [], isSyncing := false, autoSync := true, lastSyncTime := 0 }

/-- The order `processEmail` builds from the third mock email. -/
def orderC : CafeteriaOrder :=
  { id := "3", date := "2024-03-15", sender := "創価高等学校食堂",
    subject := "【創価高等学校食堂】ご注文内容の確認",
    items := [{ name := "たぬきうどん", isUdon := true },
              { name := "唐揚げ", isUdon := false }],
    fullText := "【注文内容】\n・たぬきうどん\n・唐揚げ", hasUdon := true }

/-- The three scenario-C orders: dates 2024-03-20, 2024-03-18, 2024-03-15
with two udon orders among them. -/
def demoOrders : List CafeteriaOrder :=
  [orderA, orderB, orderC]

section Theorems

/- ### Helper lemmas -/

theorem processEmail_error_iff (outcome : ServiceOutcome) (today : String)
    (email : RawEmail) (err : Unit) :
    processEmail outcome today email = .error err ↔ outcome = .transportError := by
  cases outcome with
  | transportError => simp [processEmail, parseEmailContent]
  | reply p => cases p <;> simp [processEmail, parseEmailContent]

theorem processBatch_ok_length (outcomes : RawEmail → ServiceOutcome) (today : String)
    (batch : List RawEmail) (results : List CafeteriaOrder)
    (h : processBatch outcomes today batch = .ok results) :
    results.length = batch.length := by
  induction batch generalizing results with
  | nil =>
      simp only [processBatch] at h
      injection h with h
      subst h
      rfl
  | cons e rest ih =>
      simp only [processBatch] at h
      cases he : processEmail (outcomes e) today e with
      | error err => rw [he] at h; exact Except.noConfusion h
      | ok o =>
          rw [he] at h
          cases hr : processBatch outcomes today rest with
          | error err => rw [hr] at h; exact Except.noConfusion h
          | ok os =>
              rw [hr] at h
              injection h with h
              subst h
              simp [ih os hr]

theorem processBatch_error_iff (outcomes : RawEmail → ServiceOutcome) (today : String)
    (batch : List RawEmail) :
    processBatch outcomes today batch = .error () ↔
      ∃ e ∈ batch, outcomes e = .transportError := by
  induction batch with
  | nil => simp [processBatch]
  | cons e rest ih =>
      simp only [processBatch]
      cases he : processEmail (outcomes e) today e with
      | error err =>
          have hout : outcomes e = .transportError :=
            (processEmail_error_iff (outcomes e) today e err).mp he
          simp [hout]
      | ok o =>
          have hout : outcomes e ≠ .transportError := by
            intro hc
            have : processEmail (outcomes e) today e = .error () := by
              rw [hc]; rfl
            rw [this] at he
            exact Except.noConfusion he
          cases hr : processBatch outcomes today rest with
          | error err => cases err; simp [ih.mp hr, hout]
          | ok os =>
              have : ¬ ∃ e ∈ rest, outcomes e = .transportError := by
                intro hc
                rw [ih.mpr hc] at hr
                exact Except.noConfusion hr
              simp [hout, this]

theorem processBatch_ok_of_no_error (outcomes : RawEmail → ServiceOutcome) (today : String)
    (batch : List RawEmail) (h : ∀ e ∈ batch, outcomes e ≠ .transportError) :
    ∃ results, processBatch outcomes today batch = .ok results := by
  cases hb : processBatch outcomes today batch with
  | error err =>
      cases err
      obtain ⟨e, he, hout⟩ := (processBatch_error_iff outcomes today batch).mp hb
      exact absurd hout (h e he)
  | ok results => exact ⟨results, rfl⟩

theorem charListLe_total : ∀ as bs : List Char,
    charListLe as bs = true ∨ charListLe bs as = true
  | [], _ => Or.inl rfl
  | _ :: _, [] => Or.inr rfl
  | a :: as, b :: bs => by
      by_cases h : a = b
      · subst h
        simp only [charListLe, if_pos rfl]
        exact charListLe_total as bs
      · rcases lt_trichotomy a b with hlt | heq | hgt
        · left
          simp [charListLe, h, hlt]
        · exact absurd heq h
        · have h' : ¬ (b = a) := fun hc => h hc.symm
          right
          simp [charListLe, h', hgt]

theorem charListLe_trans : ∀ as bs cs : List Char,
    charListLe as bs = true → charListLe bs cs = true → charListLe as cs = true
  | [], _, _, _, _ => rfl
  | _ :: _, [], _, h1, _ => by simp [charListLe] at h1
  | _ :: _, _ :: _, [], _, h2 => by simp [charListLe] at h2
  | a :: as, b :: bs, c :: cs, h1, h2 => by
      simp only [charListLe] at h1 h2 ⊢
      by_cases hab : a = b
      · subst hab
        rw [if_pos rfl] at h1
        by_cases hac : a = c
        · subst hac
          rw [if_pos rfl] at h2 ⊢
          exact charListLe_trans as bs cs h1 h2
        · rw [if_neg hac] at h2 ⊢
          exact h2
      · rw [if_neg hab] at h1
        have hab' : a < b := of_decide_eq_true h1
        by_cases hbc : b = c
        · subst hbc
          rw [if_neg hab]
          exact decide_eq_true hab'
        · rw [if_neg hbc] at h2
          have hac' : a < c := lt_trans hab' (of_decide_eq_true h2)
          rw [if_neg (ne_of_lt hac')]
          exact decide_eq_true hac'

theorem strLe_total (a b : String) : strLe a b = true ∨ strLe b a = true :=
  charListLe_total a.data b.data

theorem strLe_trans (a b c : String) (h1 : strLe a b = true)
    (h2 : strLe b c = true) : strLe a c = true :=
  charListLe_trans a.data b.data c.data h1 h2

theorem bumpBucket_date (u : Bool) (b : ChartBucket) :
    (bumpBucket u b).date = b.date := by
  cases u <;> rfl

theorem bumpBucket_total (u : Bool) (b : ChartBucket) :
    bucketTotal (bumpBucket u b) = bucketTotal b + 1 := by
  cases u <;> simp [bumpBucket, bucketTotal] <;> omega

theorem bumpBucket_udon (u : Bool) (b : ChartBucket) :
    (bumpBucket u b).udon = b.udon + (if u then 1 else 0) := by
  cases u <;> simp [bumpBucket]

theorem bumpBucket_others (u : Bool) (b : ChartBucket) :
    (bumpBucket u b).others = b.others + (if u then 0 else 1) := by
  cases u <;> simp [bumpBucket]

theorem any_date_iff (gs : List ChartBucket) (d : String) :
    (gs.any (fun b => b.date == d)) = true ↔ d ∈ gs.map ChartBucket.date := by
  simp [List.any_eq_true, List.mem_map]

theorem addToGroups_dates (gs : List ChartBucket) (o : CafeteriaOrder) :
    (addToGroups gs o).map ChartBucket.date =
      if o.date ∈ gs.map ChartBucket.date then gs.map ChartBucket.date
      else gs.map ChartBucket.date ++ [o.date] := by
  cases hany : gs.any (fun b => b.date == o.date) with
  | true =>
      have hm : o.date ∈ gs.map ChartBucket.date := (any_date_iff gs o.date).mp hany
      simp only [addToGroups, hany, if_true, if_pos hm]
      rw [List.map_map]
      apply List.map_congr_left
      intro b _
      simp only [Function.comp]
      by_cases hbd : b.date = o.date
      · simp [hbd, bumpBucket_date]
      · simp [hbd]
  | false =>
      have hm : o.date ∉ gs.map ChartBucket.date := by
        intro hc
        rw [(any_date_iff gs o.date).mpr hc] at hany
        exact Bool.noConfusion hany
      simp only [addToGroups, hany, Bool.false_eq_true, if_false, if_neg hm]
      simp [List.map_append, bumpBucket_date]

theorem addToGroups_dates_nodup (gs : List ChartBucket) (o : CafeteriaOrder)
    (h : (gs.map ChartBucket.date).Nodup) :
    ((addToGroups gs o).map ChartBucket.date).Nodup := by
  rw [addToGroups_dates]
  by_cases hm : o.date ∈ gs.map ChartBucket.date
  · simpa [hm] using h
  · simp [hm, h, List.nodup_append]

theorem addToGroups_dates_mem (gs : List ChartBucket) (o : CafeteriaOrder)
    (d : String) :
    d ∈ (addToGroups gs o).map ChartBucket.date ↔
      d ∈ gs.map ChartBucket.date ∨ d = o.date := by
  rw [addToGroups_dates]
  by_cases hm : o.date ∈ gs.map ChartBucket.date
  · rw [if_pos hm]
    exact ⟨Or.inl, fun h => h.elim id (fun hd => hd ▸ hm)⟩
  · rw [if_neg hm]
    simp [List.mem_append]

theorem foldl_dates_nodup (orders : List CafeteriaOrder) :
    ∀ gs : List ChartBucket, (gs.map ChartBucket.date).Nodup →
      ((orders.foldl addToGroups gs).map ChartBucket.date).Nodup := by
  induction orders with
  | nil => intro gs h; exact h
  | cons o rest ih =>
      intro gs h
      rw [List.foldl_cons]
      exact ih (addToGroups gs o) (addToGroups_dates_nodup gs o h)

theorem foldl_dates_mem (orders : List CafeteriaOrder) :
    ∀ (gs : List ChartBucket) (d : String),
      d ∈ (orders.foldl addToGroups gs).map ChartBucket.date ↔
        d ∈ gs.map ChartBucket.date ∨ d ∈ orders.map (fun o => o.date) := by
  induction orders with
  | nil => intro gs d; simp
  | cons o rest ih =>
      intro gs d
      rw [List.foldl_cons, ih (addToGroups gs o) d, addToGroups_dates_mem,
        List.map_cons, List.mem_cons]
      tauto

theorem fieldAt_nil (f : ChartBucket → Nat) (d : String) : fieldAt f [] d = 0 :=
  rfl

theorem fieldAt_cons (f : ChartBucket → Nat) (b : ChartBucket)
    (gs : List ChartBucket) (d : String) :
    fieldAt f (b :: gs) d = (if b.date = d then f b else 0) + fieldAt f gs d := by
  by_cases h : b.date = d <;> simp [fieldAt, List.filter_cons, h]

theorem fieldAt_append (f : ChartBucket → Nat) (gs hs : List ChartBucket)
    (d : String) :
    fieldAt f (gs ++ hs) d = fieldAt f gs d + fieldAt f hs d := by
  simp [fieldAt, List.filter_append]

theorem fieldAt_eq_zero (f : ChartBucket → Nat) (gs : List ChartBucket)
    (d : String) (h : d ∉ gs.map ChartBucket.date) : fieldAt f gs d = 0 := by
  induction gs with
  | nil => rfl
  | cons b gs ih =>
      rw [List.map_cons, List.mem_cons] at h
      push_neg at h
      rw [fieldAt_cons, if_neg (fun hc => h.1 hc.symm), ih h.2]

theorem fieldAt_of_mem (f : ChartBucket → Nat) (gs : List ChartBucket)
    (b : ChartBucket) (hnd : (gs.map ChartBucket.date).Nodup) (hb : b ∈ gs) :
    fieldAt f gs b.date = f b := by
  induction gs with
  | nil => cases hb
  | cons b0 gs ih =>
      rw [List.map_cons, List.nodup_cons] at hnd
      obtain ⟨h0, hnd⟩ := hnd
      rcases List.mem_cons.mp hb with rfl | hb'
      · rw [fieldAt_cons, if_pos rfl, fieldAt_eq_zero f gs b.date h0]
        omega
      · have hne : b0.date ≠ b.date := by
          intro he
          exact h0 (he ▸ List.mem_map.mpr ⟨b, hb', rfl⟩)
        rw [fieldAt_cons, if_neg hne, ih hnd hb']
        omega

theorem bumpMap_id (o : CafeteriaOrder) (gs : List ChartBucket)
    (h : o.date ∉ gs.map ChartBucket.date) :
    gs.map (fun x => if x.date == o.date then bumpBucket o.hasUdon x else x) = gs := by
  have hpt : ∀ x ∈ gs, (if x.date == o.date then bumpBucket o.hasUdon x else x) = x := by
    intro x hx
    have hne : x.date ≠ o.date := by
      intro he
      exact h (he ▸ List.mem_map.mpr ⟨x, hx, rfl⟩)
    simp [hne]
  rw [List.map_congr_left hpt]
  simp

theorem fieldAt_bumpMap (f : ChartBucket → Nat) (δ : Bool → Nat)
    (hbump : ∀ u b, f (bumpBucket u b) = f b + δ u)
    (o : CafeteriaOrder) (d : String) :
    ∀ gs : List ChartBucket, (gs.map ChartBucket.date).Nodup →
      o.date ∈ gs.map ChartBucket.date →
      fieldAt f (gs.map (fun b => if b.date == o.date then bumpBucket o.hasUdon b else b)) d
        = fieldAt f gs d + (if o.date = d then δ o.hasUdon else 0)
  | [] => by
      intro _ hm
      simp at hm
  | b :: gs => by
      intro hnd hm
      rw [List.map_cons, List.nodup_cons] at hnd
      obtain ⟨h0, hnd⟩ := hnd
      rw [List.map_cons, List.mem_cons] at hm
      rw [List.map_cons]
      by_cases hbd : b.date = o.date
      · have hhead : (if b.date == o.date then bumpBucket o.hasUdon b else b)
            = bumpBucket o.hasUdon b := by simp [hbd]
        have htail := bumpMap_id o gs (hbd ▸ h0)
        rw [hhead, htail, fieldAt_cons, fieldAt_cons, bumpBucket_date, hbump, hbd]
        by_cases hod : o.date = d <;> simp [hod] <;> omega
      · have hm' : o.date ∈ gs.map ChartBucket.date := by
          rcases hm with he | h'
          · exact absurd he.symm hbd
          · exact h'
        have hhead : (if b.date == o.date then bumpBucket o.hasUdon b else b) = b := by
          simp [hbd]
        rw [hhead, fieldAt_cons, fieldAt_cons,
          fieldAt_bumpMap f δ hbump o d gs hnd hm']
        omega

theorem addToGroups_fieldAt (f : ChartBucket → Nat) (δ : Bool → Nat)
    (hbump : ∀ u b, f (bumpBucket u b) = f b + δ u)
    (hzero : ∀ s, f { date := s, others := 0, udon := 0 } = 0)
    (gs : List ChartBucket) (o : CafeteriaOrder) (d : String)
    (hnd : (gs.map ChartBucket.date).Nodup) :
    fieldAt f (addToGroups gs o) d =
      fieldAt f gs d + (if o.date = d then δ o.hasUdon else 0) := by
  cases hany : gs.any (fun b => b.date == o.date) with
  | true =>
      have hred : addToGroups gs o =
          gs.map (fun b => if b.date == o.date then bumpBucket o.hasUdon b else b) := by
        simp [addToGroups, hany]
      rw [hred, fieldAt_bumpMap f δ hbump o d gs hnd ((any_date_iff gs o.date).mp hany)]
  | false =>
      have hred : addToGroups gs o =
          gs ++ [bumpBucket o.hasUdon { date := o.date, others := 0, udon := 0 }] := by
        simp [addToGroups, hany]
      rw [hred, fieldAt_append, fieldAt_cons, fieldAt_nil, bumpBucket_date, hbump, hzero]
      by_cases hod : o.date = d <;> simp [hod]

theorem foldl_fieldAt (f : ChartBucket → Nat) (δ : Bool → Nat)
    (hbump : ∀ u b, f (bumpBucket u b) = f b + δ u)
    (hzero : ∀ s, f { date := s, others := 0, udon := 0 } = 0) (d : String) :
    ∀ (orders : List CafeteriaOrder) (gs : List ChartBucket),
      (gs.map ChartBucket.date).Nodup →
      fieldAt f (orders.foldl addToGroups gs) d = fieldAt f gs d + countAt δ orders d
  | [], gs => by
      intro _
      simp [countAt]
  | o :: rest, gs => by
      intro hnd
      rw [List.foldl_cons,
        foldl_fieldAt f δ hbump hzero d rest (addToGroups gs o)
          (addToGroups_dates_nodup gs o hnd),
        addToGroups_fieldAt f δ hbump hzero gs o d hnd]
      have hcons : countAt δ (o :: rest) d =
          (if o.date = d then δ o.hasUdon else 0) + countAt δ rest d := by
        by_cases hod : o.date = d <;> simp [countAt, List.filter_cons, hod]
      rw [hcons]
      omega

theorem countAt_udon (orders : List CafeteriaOrder) (d : String) :
    countAt (fun u => if u then 1 else 0) orders d = countUdonAt orders d := by
  induction orders with
  | nil => rfl
  | cons o rest ih =>
      have hc : countAt (fun u => if u then 1 else 0) (o :: rest) d =
          (if o.date = d then (if o.hasUdon then 1 else 0) else 0) +
            countAt (fun u => if u then 1 else 0) rest d := by
        by_cases h1 : o.date = d <;> simp [countAt, List.filter_cons, h1]
      have hu : countUdonAt (o :: rest) d =
          (if o.date = d then (if o.hasUdon then 1 else 0) else 0) +
            countUdonAt rest d := by
        by_cases h1 : o.date = d <;> by_cases h2 : o.hasUdon <;>
          simp [countUdonAt, List.filter_cons, h1, h2] <;> omega
      rw [hc, hu, ih]

theorem countAt_others (orders : List CafeteriaOrder) (d : String) :
    countAt (fun u => if u then 0 else 1) orders d = countOthersAt orders d := by
  induction orders with
  | nil => rfl
  | cons o rest ih =>
      have hc : countAt (fun u => if u then 0 else 1) (o :: rest) d =
          (if o.date = d then (if o.hasUdon then 0 else 1) else 0) +
            countAt (fun u => if u then 0 else 1) rest d := by
        by_cases h1 : o.date = d <;> simp [countAt, List.filter_cons, h1]
      have hu : countOthersAt (o :: rest) d =
          (if o.date = d then (if o.hasUdon then 0 else 1) else 0) +
            countOthersAt rest d := by
        by_cases h1 : o.date = d <;> by_cases h2 : o.hasUdon <;>
          simp [countOthersAt, List.filter_cons, h1, h2] <;> omega
      rw [hc, hu, ih]

theorem bucketSum_cons (b : ChartBucket) (gs : List ChartBucket) :
    bucketSum (b :: gs) = bucketTotal b + bucketSum gs := by
  simp [bucketSum]

theorem bucketSum_append (gs hs : List ChartBucket) :
    bucketSum (gs ++ hs) = bucketSum gs + bucketSum hs := by
  simp [bucketSum]

theorem bumpMap_bucketSum (o : CafeteriaOrder) :
    ∀ gs : List ChartBucket, (gs.map ChartBucket.date).Nodup →
      o.date ∈ gs.map ChartBucket.date →
      bucketSum (gs.map (fun b => if b.date == o.date then bumpBucket o.hasUdon b else b))
        = bucketSum gs + 1
  | [] => by
      intro _ hm
      simp at hm
  | b :: gs => by
      intro hnd hm
      rw [List.map_cons, List.nodup_cons] at hnd
      obtain ⟨h0, hnd⟩ := hnd
      rw [List.map_cons, List.mem_cons] at hm
      rw [List.map_cons]
      by_cases hbd : b.date = o.date
      · have hhead : (if b.date == o.date then bumpBucket o.hasUdon b else b)
            = bumpBucket o.hasUdon b := by simp [hbd]
        rw [hhead, bumpMap_id o gs (hbd ▸ h0), bucketSum_cons, bucketSum_cons,
          bumpBucket_total]
        omega
      · have hm' : o.date ∈ gs.map ChartBucket.date := by
          rcases hm with he | h'
          · exact absurd he.symm hbd
          · exact h'
        have hhead : (if b.date == o.date then bumpBucket o.hasUdon b else b) = b := by
          simp [hbd]
        rw [hhead, bucketSum_cons, bucketSum_cons, bumpMap_bucketSum o gs hnd hm']
        omega

theorem addToGroups_bucketSum (gs : List ChartBucket) (o : CafeteriaOrder)
    (hnd : (gs.map ChartBucket.date).Nodup) :
    bucketSum (addToGroups gs o) = bucketSum gs + 1 := by
  cases hany : gs.any (fun b => b.date == o.date) with
  | true =>
      have hred : addToGroups gs o =
          gs.map (fun b => if b.date == o.date then bumpBucket o.hasUdon b else b) := by
        simp [addToGroups, hany]
      rw [hred, bumpMap_bucketSum o gs hnd ((any_date_iff gs o.date).mp hany)]
  | false =>
      have hred : addToGroups gs o =
          gs ++ [bumpBucket o.hasUdon { date := o.date, others := 0, udon := 0 }] := by
        simp [addToGroups, hany]
      have hone : bucketSum [bumpBucket o.hasUdon { date := o.date, others := 0, udon := 0 }]
          = 1 := by
        cases ho : o.hasUdon <;> simp [bucketSum, bumpBucket, bucketTotal]
      rw [hred, bucketSum_append, hone]

theorem foldl_bucketSum :
    ∀ (orders : List CafeteriaOrder) (gs : List ChartBucket),
      (gs.map ChartBucket.date).Nodup →
      bucketSum (orders.foldl addToGroups gs) = bucketSum gs + orders.length
  | [], gs => by
      intro _
      simp
  | o :: rest, gs => by
      intro hnd
      rw [List.foldl_cons,
        foldl_bucketSum rest (addToGroups gs o) (addToGroups_dates_nodup gs o hnd),
        addToGroups_bucketSum gs o hnd, List.length_cons]
      omega

/- ### C1 -/

/-- C1: counterexample.  The store update `setOrders(prev => [processed,
...prev])` performs no duplicate-id check: appending the very same order
twice yields a store different from the one after the first append, so
append is not idempotent in `id`. -/
theorem appendOrder_not_idempotent_cex :
    appendOrder orderA (appendOrder orderA []) ≠ appendOrder orderA [] := by
  simp [appendOrder]

/-- C1 (amended): append always inserts at the front unconditionally — the
store grows by one and changes on every append, even when an order with
the same `id` (indeed, the identical order) is already present. -/
theorem appendOrder_always_prepends (o : CafeteriaOrder) (prev : List CafeteriaOrder) :
    (appendOrder o prev).length = prev.length + 1 ∧ appendOrder o prev ≠ prev := by
  refine ⟨rfl, ?_⟩
  intro h
  have hlen := congrArg List.length h
  simp [appendOrder] at hlen

/- ### C2 -/

/-- C2: counterexample.  The `await` on the underlying service call is
outside the try/catch, so a transport error propagates to the caller;
moreover the JSON-parse failure fallback is `{items: [], date: today}`,
not the empty result `{date: "", items: []}`. -/
theorem parseEmailContent_raises_cex :
    parseEmailContent .transportError "2024-03-20" = .error () ∧
    parseEmailContent (.reply none) "2024-03-20" ≠
      .ok { items := [], date := "" } := by
  refine ⟨rfl, fun h => ?_⟩
  simp only [parseEmailContent] at h
  injection h with h
  exact absurd (congrArg ParsedContent.date h) (by decide)

/-- C2 (amended): `parseEmailContent` raises to its caller exactly on a
transport error of the underlying service; a reply whose text fails
`JSON.parse` degrades to `{items: [], date: current date}` (not an empty
date); a parseable reply is returned as-is, unvalidated. -/
theorem parseEmailContent_spec (outcome : ServiceOutcome) (today : String) :
    (parseEmailContent outcome today = .error () ↔ outcome = .transportError) ∧
    (outcome = .reply none →
      parseEmailContent outcome today = .ok { items := [], date := today }) := by
  cases outcome with
  | transportError => simp [parseEmailContent]
  | reply p => cases p <;> simp [parseEmailContent]

/-- C2 witness: the amended statement at a concrete failed parse. -/
theorem parseEmailContent_spec_witness :
    parseEmailContent (.reply none) "2024-03-21" =
      .ok { items := [], date := "2024-03-21" } :=
  (parseEmailContent_spec (.reply none) "2024-03-21").2 rfl

/- ### C3 -/

/-- C3: counterexample.  `date: parsed.date || email.date.split(ONE_SPACE)[0]`
has no current-processing-date fallback: with an empty extraction date and
an empty raw timestamp the built order's `date` is the empty string, not
the current date "2024-03-21". -/
theorem processEmail_empty_date_cex :
    processEmail (.reply (some { items := [], date := "" })) "2024-03-21"
        { id := "9", subject := "sub", date := "", body := "body" } =
      .ok { id := "9", date := "", sender := "創価高等学校食堂", subject := "sub",
            items := [], fullText := "body", hasUdon := false } := by
  rfl

/-- C3 (amended): whenever `processEmail` returns an order, its `date` is
the extraction date when that is non-empty, and otherwise the prefix of
the raw message's `date` before the first space — with no further
fallback, so it can be empty. -/
theorem processEmail_date_spec (outcome : ServiceOutcome) (today : String)
    (email : RawEmail) (p : ParsedContent) (o : CafeteriaOrder)
    (hp : parseEmailContent outcome today = .ok p)
    (ho : processEmail outcome today email = .ok o) :
    o.date = if p.date = "" then splitFirst email.date ' ' else p.date := by
  unfold processEmail at ho
  rw [hp] at ho
  injection ho with ho
  subst ho
  rfl

/-- C3 witness: scenario B — empty extraction date, raw timestamp
"2024-03-18 11:30" — gives the order date "2024-03-18". -/
theorem processEmail_date_spec_witness :
    orderB.date =
      if ("" : String) = "" then splitFirst "2024-03-18 11:30" ' ' else "" :=
  processEmail_date_spec (.reply (some { items := [], date := "" })) "2024-03-21"
    emailB { items := [], date := "" } orderB rfl rfl

/- ### C4 -/

/-- C4: counterexample.  In a two-email batch where only the first email's
extraction rejects, the second email's extraction succeeds (it alone
yields `orderB` with an empty-date extraction of empty items — here its
date comes from its raw timestamp), yet `Promise.all` rejects, the catch
clause drops everything, and no order at all is stored — partial failure
IS batch failure.  `isSyncing` does return to `false`. -/
theorem initialLoad_discards_batch_cex :
    processEmail (cexOutcomes emailB) "2024-03-21" emailB = .ok orderB ∧
    (initialLoad cexOutcomes "2024-03-21" [emailA, emailB] s0).orders = [] ∧
    (initialLoad cexOutcomes "2024-03-21" [emailA, emailB] s0).isSyncing = false := by
  refine ⟨rfl, rfl, rfl⟩

/-- C4 (amended): the initial load always returns the scheduler to Idle and
leaves `autoSync` alone; when NO message's extraction raises, every
message of the batch yields exactly one stored order; but when some
message's extraction raises, the whole batch is discarded and the store
keeps its previous value. -/
theorem initialLoad_spec (outcomes : RawEmail → ServiceOutcome) (today : String)
    (batch : List RawEmail) (s : AppState) :
    (initialLoad outcomes today batch s).isSyncing = false ∧
    (initialLoad outcomes today batch s).autoSync = s.autoSync ∧
    ((∀ e ∈ batch, outcomes e ≠ .transportError) →
      (initialLoad outcomes today batch s).orders.length = batch.length) ∧
    ((∃ e ∈ batch, outcomes e = .transportError) →
      (initialLoad outcomes today batch s).orders = s.orders) := by
  refine ⟨?_, ?_, ?_, ?_⟩
  · unfold initialLoad
    cases processBatch outcomes today batch <;> rfl
  · unfold initialLoad
    cases processBatch outcomes today batch <;> rfl
  · intro h
    obtain ⟨results, hr⟩ := processBatch_ok_of_no_error outcomes today batch h
    unfold initialLoad
    rw [hr]
    simp [setOrders, setIsSyncing, processBatch_ok_length outcomes today batch results hr]
  · intro h
    have hr := (processBatch_error_iff outcomes today batch).mpr h
    unfold initialLoad
    rw [hr]
    rfl

/-- C4 witness: with no failing outcome the two-email batch stores two
orders; with `emailA` failing the store is unchanged. -/
theorem initialLoad_spec_witness :
    (initialLoad (fun _ => .reply (some parsedA)) "2024-03-21" [emailA, emailB] s0).orders.length
      = 2 ∧
    (initialLoad cexOutcomes "2024-03-21" [emailA, emailB] s0).orders = s0.orders :=
  ⟨(initialLoad_spec (fun _ => .reply (some parsedA)) "2024-03-21" [emailA, emailB] s0).2.2.1
      (by decide),
   (initialLoad_spec cexOutcomes "2024-03-21" [emailA, emailB] s0).2.2.2
      (by decide)⟩

/- ### C5 -/

/-- C5: every order `processEmail` builds satisfies
`hasUdon = items.any isUdon` — the invariant holds at construction (and
orders are never mutated afterwards; the store only prepends). -/
theorem processEmail_hasUdon_invariant (outcome : ServiceOutcome) (today : String)
    (email : RawEmail) (o : CafeteriaOrder)
    (h : processEmail outcome today email = .ok o) :
    o.hasUdon = o.items.any (fun item => item.isUdon) := by
  unfold processEmail at h
  cases hp : parseEmailContent outcome today with
  | error e => rw [hp] at h; exact Except.noConfusion h
  | ok parsed =>
      rw [hp] at h
      injection h with h
      subst h
      rfl

/-- C5 witness: scenario A — the order built from `emailA` with two items,
one of them udon, has `hasUdon = true = items.any isUdon`. -/
theorem processEmail_hasUdon_invariant_witness :
    orderA.hasUdon = orderA.items.any (fun item => item.isUdon) :=
  processEmail_hasUdon_invariant (.reply (some parsedA)) "2024-03-21" emailA orderA rfl

/- ### C6 -/

theorem groups_nodup (orders : List CafeteriaOrder) :
    ((groupOrders orders).map ChartBucket.date).Nodup :=
  foldl_dates_nodup orders [] (by simp)

theorem groups_dates_perm (orders : List CafeteriaOrder) :
    List.Perm ((groupOrders orders).map ChartBucket.date)
      ((orders.map (fun o => o.date)).dedup) := by
  refine (List.perm_ext_iff_of_nodup (groups_nodup orders) (List.nodup_dedup _)).mpr ?_
  intro d
  rw [List.mem_dedup]
  constructor
  · intro h
    rcases (foldl_dates_mem orders [] d).mp h with h' | h'
    · simp at h'
    · exact h'
  · intro h
    exact (foldl_dates_mem orders [] d).mpr (Or.inr h)

theorem sortedGroups_perm (orders : List CafeteriaOrder) :
    List.Perm (sortedGroups orders) (groupOrders orders) :=
  List.perm_insertionSort _ _

theorem sortedGroups_sorted (orders : List CafeteriaOrder) :
    List.Sorted (fun a b : ChartBucket => strLe a.date b.date = true)
      (sortedGroups orders) := by
  haveI : IsTotal ChartBucket (fun a b => strLe a.date b.date = true) :=
    ⟨fun a b => strLe_total a.date b.date⟩
  haveI : IsTrans ChartBucket (fun a b => strLe a.date b.date = true) :=
    ⟨fun a b c h1 h2 => strLe_trans a.date b.date c.date h1 h2⟩
  exact List.sorted_insertionSort _ _

theorem chartData_subset (orders : List CafeteriaOrder) (b : ChartBucket)
    (hb : b ∈ chartData orders) : b ∈ groupOrders orders :=
  (sortedGroups_perm orders).mem_iff.mp (List.mem_of_mem_drop hb)

/-- C6: the chart series groups the orders by exact date string with
per-bucket udon and non-udon counts, is sorted ascending by date, keeps at
most 14 buckets, drops only the oldest dates (every date missing from the
series is strictly below every kept date), and when the 14-bucket window
covers all distinct dates the bucket totals sum to the number of orders. -/
theorem chartData_spec (orders : List CafeteriaOrder) :
    List.Sorted (fun a b : ChartBucket => strLe a.date b.date = true) (chartData orders) ∧
    (chartData orders).length ≤ 14 ∧
    (∀ b ∈ chartData orders,
        b.udon = countUdonAt orders b.date ∧ b.others = countOthersAt orders b.date) ∧
    ((orders.map (fun o => o.date)).dedup.length ≤ 14 →
        ((chartData orders).map (fun b => b.udon + b.others)).sum = orders.length) ∧
    (∀ o ∈ orders, o.date ∉ (chartData orders).map ChartBucket.date →
        ∀ b ∈ chartData orders, strLt o.date b.date = true) := by
  refine ⟨?_, ?_, ?_, ?_, ?_⟩
  · show List.Sorted _ (sliceLast 14 (sortedGroups orders))
    unfold sliceLast
    exact List.Pairwise.sublist (List.drop_sublist _ _) (sortedGroups_sorted orders)
  · show (sliceLast 14 (sortedGroups orders)).length ≤ 14
    unfold sliceLast
    rw [List.length_drop]
    omega
  · intro b hb
    have hmem : b ∈ groupOrders orders := chartData_subset orders b hb
    have hnd := groups_nodup orders
    constructor
    · have h1 := foldl_fieldAt ChartBucket.udon (fun u => if u then 1 else 0)
        (fun u b => bumpBucket_udon u b) (fun _ => rfl) b.date orders [] (by simp)
      have h2 := fieldAt_of_mem ChartBucket.udon (groupOrders orders) b hnd hmem
      calc b.udon = fieldAt ChartBucket.udon (groupOrders orders) b.date := h2.symm
        _ = fieldAt ChartBucket.udon [] b.date
              + countAt (fun u => if u then 1 else 0) orders b.date := h1
        _ = countUdonAt orders b.date := by
              rw [fieldAt_nil, countAt_udon, Nat.zero_add]
    · have h1 := foldl_fieldAt ChartBucket.others (fun u => if u then 0 else 1)
        (fun u b => bumpBucket_others u b) (fun _ => rfl) b.date orders [] (by simp)
      have h2 := fieldAt_of_mem ChartBucket.others (groupOrders orders) b hnd hmem
      calc b.others = fieldAt ChartBucket.others (groupOrders orders) b.date := h2.symm
        _ = fieldAt ChartBucket.others [] b.date
              + countAt (fun u => if u then 0 else 1) orders b.date := h1
        _ = countOthersAt orders b.date := by
              rw [fieldAt_nil, countAt_others, Nat.zero_add]
  · intro hle
    have hlen : (groupOrders orders).length ≤ 14 := by
      have hperm := (groups_dates_perm orders).length_eq
      rw [List.length_map] at hperm
      omega
    have hslen : (sortedGroups orders).length = (groupOrders orders).length :=
      (sortedGroups_perm orders).length_eq
    have heq : chartData orders = sortedGroups orders := by
      show sliceLast 14 (sortedGroups orders) = _
      unfold sliceLast
      have hz : (sortedGroups orders).length - 14 = 0 := by omega
      rw [hz, List.drop_zero]
    rw [heq]
    have hsum : bucketSum (sortedGroups orders) = bucketSum (groupOrders orders) :=
      ((sortedGroups_perm orders).map bucketTotal).sum_eq
    have hfold := foldl_bucketSum orders [] (by simp)
    calc ((sortedGroups orders).map (fun b => b.udon + b.others)).sum
        = bucketSum (sortedGroups orders) := rfl
      _ = bucketSum (groupOrders orders) := hsum
      _ = orders.length := by
            unfold groupOrders
            rw [hfold]
            simp [bucketSum]
  · intro o ho hnotin b hb
    have hcd : chartData orders
        = (sortedGroups orders).drop ((sortedGroups orders).length - 14) := rfl
    rw [hcd] at hnotin hb
    have hmemdates : o.date ∈ (sortedGroups orders).map ChartBucket.date := by
      have h1 : o.date ∈ (groupOrders orders).map ChartBucket.date :=
        (foldl_dates_mem orders [] o.date).mpr (Or.inr (List.mem_map.mpr ⟨o, ho, rfl⟩))
      exact ((sortedGroups_perm orders).map ChartBucket.date).mem_iff.mpr h1
    have hsplit : (sortedGroups orders).take ((sortedGroups orders).length - 14)
        ++ (sortedGroups orders).drop ((sortedGroups orders).length - 14)
        = sortedGroups orders := List.take_append_drop _ _
    have hto : o.date ∈
        ((sortedGroups orders).take ((sortedGroups orders).length - 14)).map
          ChartBucket.date := by
      have hsplit2 : o.date ∈
          ((sortedGroups orders).take ((sortedGroups orders).length - 14)).map
            ChartBucket.date ∨
          o.date ∈
          ((sortedGroups orders).drop ((sortedGroups orders).length - 14)).map
            ChartBucket.date := by
        rw [← List.mem_append, ← List.map_append, hsplit]
        exact hmemdates
      rcases hsplit2 with h | h
      · exact h
      · exact absurd h hnotin
    obtain ⟨bd, hbd_mem, hbd_date⟩ := List.mem_map.mp hto
    have hsorted := sortedGroups_sorted orders
    rw [← hsplit, List.Sorted, List.pairwise_append] at hsorted
    obtain ⟨-, -, hcross⟩ := hsorted
    have hle : strLe bd.date b.date = true := hcross bd hbd_mem b hb
    have hle' : strLe o.date b.date = true := hbd_date ▸ hle
    have hne : o.date ≠ b.date := by
      intro he
      exact hnotin (he ▸ List.mem_map.mpr ⟨b, hb, rfl⟩)
    unfold strLt
    rw [Bool.and_eq_true]
    exact ⟨hle', by simp [hne]⟩

/-- C6 witness: the three scenario-C orders give the sorted buckets
`[(2024-03-15, 1 udon), (2024-03-18, 1 other), (2024-03-20, 1 udon)]`;
the 03-15 bucket counts are checked and the bucket totals sum to 3. -/
theorem chartData_spec_witness :
    (({ date := "2024-03-15", others := 0, udon := 1 } : ChartBucket).udon
        = countUdonAt demoOrders "2024-03-15" ∧
      ({ date := "2024-03-15", others := 0, udon := 1 } : ChartBucket).others
        = countOthersAt demoOrders "2024-03-15") ∧
    ((chartData demoOrders).map (fun b => b.udon + b.others)).sum = demoOrders.length :=
  ⟨(chartData_spec demoOrders).2.2.1 { date := "2024-03-15", others := 0, udon := 1 }
      (by decide),
   (chartData_spec demoOrders).2.2.2.1 (by decide)⟩

/- ### C7 -/

/-- C7: on the empty order list the statistics are exactly zero everywhere;
in particular `udonPercentage` is exactly `0` because the division is
guarded by `orders.length > 0`. -/
theorem stats_empty (currentMonth : String) :
    stats currentMonth [] =
      { totalOrders := 0, udonCount := 0, udonPercentage := 0, thisMonthCount := 0 } := by
  rfl

/- ### C8 -/

/-- C8: counterexample.  The aggregator counts `thisMonthCount` with the
module-level `CURRENT_MONTH` constant (the month at load time, here
"2024-03"), not a caller-supplied period: for the caller period "2023-01"
and a January-2023 udon order, the claimed equality fails (0 ≠ 1). -/
theorem stats_period_not_injected_cex :
    (stats "2024-03" [orderJan]).thisMonthCount ≠
      (([orderJan] : List CafeteriaOrder).filter
        (fun o => o.hasUdon && strStartsWith o.date "2023-01")).length := by
  decide

/-- C8 (amended): `thisMonthCount` equals the number of orders with
`hasUdon` whose date starts with the module-level `CURRENT_MONTH` prefix
fixed at load time; the period is not a parameter the aggregator's
callers supply. -/
theorem stats_thisMonth_spec (currentMonth : String) (orders : List CafeteriaOrder) :
    (stats currentMonth orders).thisMonthCount =
      (orders.filter (fun o => o.hasUdon && strStartsWith o.date currentMonth)).length := by
  simp [stats, List.filter_filter, Bool.and_comm]

/- ### C9 -/

/-- C9: `handleManualSync` never touches the order collection: the state
during the simulated delay and the final state keep `orders` (and
`autoSync`) unchanged; only `isSyncing` is toggled on and back off and
`lastSyncTime` is set to the completion time. -/
theorem handleManualSync_frame (s : AppState) (now : Nat) :
    (handleManualSync s now).2.orders = s.orders ∧
    (handleManualSync s now).1.orders = s.orders ∧
    (handleManualSync s now).1.isSyncing = true ∧
    (handleManualSync s now).2.isSyncing = false ∧
    (handleManualSync s now).2.lastSyncTime = now ∧
    (handleManualSync s now).2.autoSync = s.autoSync :=
  ⟨rfl, rfl, rfl, rfl, rfl, rfl⟩

/- ### C10 -/

/-- C10: the computed statistics always satisfy
`thisMonthCount ≤ udonCount ≤ totalOrders`: the month filter runs over the
udon orders, which are a filter of all orders. -/
theorem stats_counts_nested (currentMonth : String) (orders : List CafeteriaOrder) :
    (stats currentMonth orders).thisMonthCount ≤ (stats currentMonth orders).udonCount ∧
    (stats currentMonth orders).udonCount ≤ (stats currentMonth orders).totalOrders := by
  constructor
  · simp only [stats]
    exact List.length_filter_le _ _
  · simp only [stats]
    exact List.length_filter_le _ _

end Theorems

end Udon
